import Mathlib

/-!
Verification of the 1D finite-element solver in `src/lab1/FEM1.h`.

The solver builds nodal Lagrange basis functions of order 1-3 on the
reference interval [-1, 1], assembles a global stiffness matrix and load
vector by 3-point Gauss quadrature, applies Dirichlet boundary
conditions through a `std::map`, and reports an L2 error norm against a
closed-form exact solution.

The embedding below models the C++ `double` arithmetic by exact
arithmetic over a field `K` (instantiated at `ℚ` for computation and at
`ℝ` for calculus facts); `exit(0)` calls are modelled by `Option`
(`none` means the program aborts).  Loops become `List.foldl` in source
order, and the `std::map` becomes an association list with
insert-or-overwrite semantics.
-/

namespace FEM1

/-- `FEM<dim>::xi_at_node` (FEM1.h lines 111-128): position of a local
node in the bi-unit reference domain, deal.II node numbering.  The
final `else` branch in the source prints an error and calls `exit(0)`,
modelled by `none`. -/
def xi_at_node (K : Type) [Field K] (order node : ℕ) : Option K :=
  if node = 0 then some (-1)
  else if node = 1 then some 1
  else if node ≤ order then some (-1 + 2 * ((node : K) - 1) / (order : K))
  else none

/-- The value of `xi_at_node` on its non-failing domain (`node = 0`,
`node = 1`, or `node ≤ order`); the calls made inside `basis_function`
and `basis_gradient` are always in that domain when the caller's node
index is valid. -/
def xiK (K : Type) [Field K] (order node : ℕ) : K :=
  (xi_at_node K order node).getD 0

/-- `FEM<dim>::basis_function` (FEM1.h lines 131-152): the Lagrange
product `Π_{i ≠ node} (ξ - ξ_i)/(ξ_node - ξ_i)`, accumulated by a loop
for `i = 0 .. order`.  Each loop iteration with `i ≠ node` evaluates
`xi_at_node` at `i` and at `node`; a failing call (only possible when
`node > order`) aborts the program, modelled by `Option.bind`. -/
def basis_function (K : Type) [Field K] (order node : ℕ) (xi : K) : Option K :=
  (List.range (order + 1)).foldl
    (fun value i =>
      if i ≠ node then
        value.bind fun v =>
          (xi_at_node K order i).bind fun xii =>
            (xi_at_node K order node).map fun xin =>
              v * ((xi - xii) / (xin - xii))
      else value)
    (some 1)

/-- The value computed by `basis_function` when it does not abort. -/
def basis_function_val (K : Type) [Field K] (order node : ℕ) (xi : K) : K :=
  (basis_function K order node xi).getD 0

/-- `FEM<dim>::basis_gradient` (FEM1.h lines 156-244): `value` starts
at 0; an explicit branch per order 1, 2, 3 fills it with the analytic
derivative of the Lagrange product, and any other order falls through
and returns the initial 0.  In the order-2 and order-3 branches the
source first computes `xi0 = xi_at_node(node)`, which aborts when
`node > order` (modelled by `Option.map` on that call); the remaining
`xi_at_node` calls have hard-coded valid node arguments and are written
with `xiK`.  The per-node assignments of `xi1`, `xi2` (order 2) and
`xi1`, `xi2`, `xi3` (order 3) are transcribed from the source's
`if (node==...)` blocks.  (In the order-1 branch the source has
`assert(node==1)` on the else path, a no-op in release builds.) -/
def basis_gradient (K : Type) [Field K] (order node : ℕ) (xi : K) : Option K :=
  if order = 1 then
    some (if node = 0 then -1 / 2 else 1 / 2)
  else if order = 2 then
    (xi_at_node K order node).map fun xi0 =>
      let xi1 := if node = 0 then xiK K order 1 else xiK K order 0
      let xi2 := if node = 2 then xiK K order 1 else xiK K order 2
      let denum := (xi0 - xi1) * (xi0 - xi2)
      (xi - xi2) / denum + (xi - xi1) / denum
  else if order = 3 then
    (xi_at_node K order node).map fun xi0 =>
      let xi1 := if node = 0 then xiK K order 1 else xiK K order 0
      let xi2 := if node ≤ 1 then xiK K order 2 else xiK K order 1
      let xi3 := if node = 3 then xiK K order 2 else xiK K order 3
      let denum := (xi0 - xi1) * (xi0 - xi2) * (xi0 - xi3)
      (xi - xi2) * (xi - xi3) / denum + (xi - xi1) * (xi - xi3) / denum +
        (xi - xi1) * (xi - xi2) / denum
  else
    some 0

/-- The value computed by `basis_gradient` when it does not abort. -/
def basis_gradient_val (K : Type) [Field K] (order node : ℕ) (xi : K) : K :=
  (basis_gradient K order node xi).getD 0

/-- The 3-point Gauss quadrature points installed by
`FEM<dim>::setup_system` (FEM1.h line 334), as exact decimal values of
the source literals. -/
def quad_points : List ℚ :=
  [-0.7745966692414834, 0.0, 0.7745966692414834]

/-- The 3-point Gauss quadrature weights installed by
`FEM<dim>::setup_system` (FEM1.h line 336), as exact decimal values of
the source literals. -/
def quad_weight : List ℚ :=
  [0.5555555555555557, 0.8888888888888888, 0.5555555555555557]

/-- `quadRule` from `FEM<dim>::setup_system` (FEM1.h line 330). -/
def quadRule : ℕ := 3

/-- `FEM<dim>::FEM` (FEM1.h lines 89-105): the constructor stores the
order and the problem number; it validates only the problem number
(`exit(0)`, modelled by `none`, unless it is 1 or 2).  The order is
stored unchecked. -/
def FEM_ctor (order problem : ℕ) : Option (ℕ × ℕ) :=
  if problem = 1 ∨ problem = 2 then some (order, problem) else none

/-- Insert-or-overwrite into an association list, modelling
`std::map<unsigned int, double>::operator[]` assignment. -/
def mapInsert : List (ℕ × ℚ) → ℕ → ℚ → List (ℕ × ℚ)
  | [], k, v => [(k, v)]
  | p :: rest, k, v =>
      if p.1 = k then (k, v) :: rest else p :: mapInsert rest k v

/-- Lookup in an association list, modelling `std::map` lookup. -/
def mapLookup : List (ℕ × ℚ) → ℕ → Option ℚ
  | [], _ => none
  | p :: rest, k => if p.1 = k then some p.2 else mapLookup rest k

/-- One iteration of the node loop in `FEM<dim>::define_boundary_conds`
(FEM1.h lines 276-285): if `nodeLocation[n] == 0` store `g1`; if
`nodeLocation[n] == L` and `prob == 1` store `g2`. -/
def bc_step (prob : ℕ) (L g1 g2 : ℚ) (loc : List ℚ) (m : List (ℕ × ℚ))
    (n : ℕ) : List (ℕ × ℚ) :=
  let m1 := if loc.getD n 0 = 0 then mapInsert m n g1 else m
  if loc.getD n 0 = L ∧ prob = 1 then mapInsert m1 n g2 else m1

/-- `FEM<dim>::define_boundary_conds` (FEM1.h lines 261-286): loop over
all global nodes, filling the `boundary_values` map. -/
def define_boundary_conds (prob : ℕ) (L g1 g2 : ℚ) (loc : List ℚ) :
    List (ℕ × ℚ) :=
  (List.range loc.length).foldl (bc_step prob L g1 g2 loc) []

/-- `define_boundary_conds` truncated to the first `N` loop iterations
(the full map is the `N = loc.length` instance). -/
def bcAux (prob : ℕ) (L g1 g2 : ℚ) (loc : List ℚ) (N : ℕ) : List (ℕ × ℚ) :=
  (List.range N).foldl (bc_step prob L g1 g2 loc) []

/-- The inner interpolation loop shared by `assemble_system`
(FEM1.h lines 384-387) and `l2norm_of_error` (lines 495-499):
`x += nodeLocation[local_dof_indices[B]] * basis_function(B, ξ_q)` over
`B = 0 .. dofs_per_elem - 1`, with `dofs_per_elem = order + 1` for a 1D
Lagrange element.  The same loop shape interpolates the solution vector
`D` in `l2norm_of_error`, so `vals` is the table being interpolated
(`nodeLocation` or `D`). -/
def interp (order : ℕ) (vals : List ℚ) (dofs : List ℕ) (xi : ℚ) : ℚ :=
  (List.range (order + 1)).foldl
    (fun x B => x + vals.getD (dofs.getD B 0) 0 * basis_function_val ℚ order B xi)
    0

/-- The distributed-load quadrature loop of `assemble_system`
(FEM1.h lines 378-392): entry `A` of `Flocal` before any Neumann term,
`Σ_q (h_e/2) · basis(A, ξ_q) · w_q · f(x_q)` with `f = 1 · x`. -/
def Flocal_int (order : ℕ) (loc : List ℚ) (dofs : List ℕ) (A : ℕ) : ℚ :=
  let h_e := loc.getD (dofs.getD 1 0) 0 - loc.getD (dofs.getD 0 0) 0
  (List.range quadRule).foldl
    (fun acc q =>
      let xi := quad_points.getD q 0
      let x := interp order loc dofs xi
      acc + h_e / 2 * basis_function_val ℚ order A xi * quad_weight.getD q 0 * (1 * x))
    0

/-- The complete local load vector of `assemble_system`
(FEM1.h lines 377-401): the quadrature integrals for every local node,
then, when `prob == 2` and the element's right-end node sits at `x = L`
(lines 393-401), `Flocal[1] += h`. -/
def Flocal (order prob : ℕ) (L h : ℚ) (loc : List ℚ) (dofs : List ℕ) : List ℚ :=
  let base := (List.range (order + 1)).map (Flocal_int order loc dofs)
  if prob = 2 then
    if loc.getD (dofs.getD 1 0) 0 = L then base.set 1 (base.getD 1 0 + h)
    else base
  else base

/-- The local stiffness entry of `assemble_system`
(FEM1.h lines 403-414): `Σ_q (2/h_e) · dbasis(A, ξ_q) · dbasis(B, ξ_q) · w_q`. -/
def Klocal (order : ℕ) (loc : List ℚ) (dofs : List ℕ) (A B : ℕ) : ℚ :=
  let h_e := loc.getD (dofs.getD 1 0) 0 - loc.getD (dofs.getD 0 0) 0
  (List.range quadRule).foldl
    (fun acc q =>
      acc + 2 / h_e * basis_gradient_val ℚ order A (quad_points.getD q 0) *
        basis_gradient_val ℚ order B (quad_points.getD q 0) * quad_weight.getD q 0)
    0

/-- The global load-vector assembly of `assemble_system`
(FEM1.h lines 351, 418-422): starting from `F = 0`, for each element in
mesh order do `F[local_dof_indices[A]] += Flocal[A]`.  The global vector
is modelled as a function from global DOF index to value.  Note there is
no element-length check anywhere in this loop. -/
def scatterF (order prob : ℕ) (L h : ℚ) (loc : List ℚ) (elems : List (List ℕ)) :
    ℕ → ℚ :=
  elems.foldl
    (fun F dofs =>
      (List.range (order + 1)).foldl
        (fun F A =>
          Function.update F (dofs.getD A 0)
            (F (dofs.getD A 0) + (Flocal order prob L h loc dofs).getD A 0))
        F)
    fun _ => 0

/-- The loop order of the global stiffness assembly (`A` outer, `B`
inner, FEM1.h lines 418-430) as a flat list of index pairs. -/
def pairList (order : ℕ) : List (ℕ × ℕ) :=
  (List.range (order + 1)).flatMap fun A => (List.range (order + 1)).map fun B => (A, B)

/-- The global stiffness assembly of `assemble_system`
(FEM1.h lines 351, 418-430): starting from `K = 0`, for each element do
`K.add(local_dof_indices[A], local_dof_indices[B], Klocal[A][B])`. -/
def scatterK (order : ℕ) (loc : List ℚ) (elems : List (List ℕ)) : ℕ × ℕ → ℚ :=
  elems.foldl
    (fun Kg dofs =>
      (pairList order).foldl
        (fun Kg p =>
          Function.update Kg (dofs.getD p.1 0, dofs.getD p.2 0)
            (Kg (dofs.getD p.1 0, dofs.getD p.2 0) + Klocal order loc dofs p.1 p.2))
        Kg)
    fun _ => 0

/-- The exact solution evaluated in `l2norm_of_error`
(FEM1.h lines 500-504), one closed form per problem variant (`u_exact`
is left untouched by the source for any other `prob`; the constructor
guarantees `prob ∈ {1, 2}`). -/
def u_exact (prob : ℕ) (L g1 g2 E h x : ℚ) : ℚ :=
  if prob = 1 then
    -x * x * x * 100000000000 / (6 * E) +
      (g2 - g1 + L * L * L * 100000000000 / (6 * E)) / L * x + g1
  else if prob = 2 then
    -x * x * x / (6 * E) + (h + 0.5 * L * L) * x + g1
  else 0

/-- The accumulation loop of `FEM<dim>::l2norm_of_error`
(FEM1.h lines 466-512): over each element and each quadrature point,
`l2norm += (u_h - u_exact)·(u_h - u_exact) · h_e / 2 · w_q`, where `x`
and `u_h` come from the shared interpolation loop.  The function
returns `sqrt` of this total (line 511); the square root is taken in
the theorems, over `ℝ`. -/
def l2norm_sq_code (order prob : ℕ) (L g1 g2 E h : ℚ) (elems : List (List ℕ))
    (loc D : List ℚ) : ℚ :=
  elems.foldl
    (fun l2norm dofs =>
      let h_e := loc.getD (dofs.getD 1 0) 0 - loc.getD (dofs.getD 0 0) 0
      (List.range quadRule).foldl
        (fun l2 q =>
          let xi := quad_points.getD q 0
          let x := interp order loc dofs xi
          let u_h := interp order D dofs xi
          l2 + (u_h - u_exact prob L g1 g2 E h x) * (u_h - u_exact prob L g1 g2 E h x) *
            h_e / 2 * quad_weight.getD q 0)
        l2norm)
    0

/-- Modelled from the spec (section 4.6 and claim C3's wording): the sum,
over all elements and all quadrature points `q`, of
`(u_h(x_q) - u_exact(x_q))² · (h_e/2) · weight_q`, with `x_q` and
`u_h(x_q)` interpolated through the same basis-function values used in
assembly.  This is the specification-side formula that
`l2norm_sq_code` is compared against. -/
def l2norm_sq_spec (order prob : ℕ) (L g1 g2 E h : ℚ) (elems : List (List ℕ))
    (loc D : List ℚ) : ℚ :=
  (elems.map fun dofs =>
    let h_e := loc.getD (dofs.getD 1 0) 0 - loc.getD (dofs.getD 0 0) 0
    ((List.range quadRule).map fun q =>
      let xi := quad_points.getD q 0
      let x := interp order loc dofs xi
      let u_h := interp order D dofs xi
      (u_h - u_exact prob L g1 g2 E h x) ^ 2 * (h_e / 2) * quad_weight.getD q 0).sum).sum

/-! ### Closed forms of the basis functions and gradients, orders 1-3 -/

variable (K : Type) [Field K] [CharZero K]

/-- Order 1, node 0 basis value in closed form. -/
theorem bf10 (t : K) : basis_function_val K 1 0 t = -(1 / 2) * t + 1 / 2 := by
  simp [basis_function_val, basis_function, xi_at_node, List.range_succ]
  ring

/-- Order 1, node 1 basis value in closed form. -/
theorem bf11 (t : K) : basis_function_val K 1 1 t = 1 / 2 * t + 1 / 2 := by
  simp [basis_function_val, basis_function, xi_at_node, List.range_succ]
  ring

/-- Order 2, node 0 basis value in closed form. -/
theorem bf20 (t : K) : basis_function_val K 2 0 t = 1 / 2 * t ^ 2 - 1 / 2 * t := by
  simp [basis_function_val, basis_function, xi_at_node, List.range_succ]
  ring

/-- Order 2, node 1 basis value in closed form. -/
theorem bf21 (t : K) : basis_function_val K 2 1 t = 1 / 2 * t ^ 2 + 1 / 2 * t := by
  simp [basis_function_val, basis_function, xi_at_node, List.range_succ]
  ring

/-- Order 2, node 2 basis value in closed form. -/
theorem bf22 (t : K) : basis_function_val K 2 2 t = 1 - t ^ 2 := by
  simp [basis_function_val, basis_function, xi_at_node, List.range_succ]
  ring

/-- Order 3, node 0 basis value in closed form. -/
theorem bf30 (t : K) :
    basis_function_val K 3 0 t =
      -(9 / 16) * t ^ 3 + 9 / 16 * t ^ 2 + 1 / 16 * t - 1 / 16 := by
  simp [basis_function_val, basis_function, xi_at_node, List.range_succ]
  field_simp
  ring

/-- Order 3, node 1 basis value in closed form. -/
theorem bf31 (t : K) :
    basis_function_val K 3 1 t =
      9 / 16 * t ^ 3 + 9 / 16 * t ^ 2 - 1 / 16 * t - 1 / 16 := by
  simp [basis_function_val, basis_function, xi_at_node, List.range_succ]
  field_simp
  ring

/-- Order 3, node 2 basis value in closed form. -/
theorem bf32 (t : K) :
    basis_function_val K 3 2 t =
      27 / 16 * t ^ 3 - 9 / 16 * t ^ 2 - 27 / 16 * t + 9 / 16 := by
  simp [basis_function_val, basis_function, xi_at_node, List.range_succ]
  field_simp
  ring

/-- Order 3, node 3 basis value in closed form. -/
theorem bf33 (t : K) :
    basis_function_val K 3 3 t =
      -(27 / 16) * t ^ 3 - 9 / 16 * t ^ 2 + 27 / 16 * t + 9 / 16 := by
  simp [basis_function_val, basis_function, xi_at_node, List.range_succ]
  field_simp
  ring

/-- Order 1, node 0 basis gradient in closed form. -/
theorem bg10 (t : K) : basis_gradient_val K 1 0 t = -(1 / 2) := by
  simp [basis_gradient_val, basis_gradient]
  norm_num

/-- Order 1, node 1 basis gradient in closed form. -/
theorem bg11 (t : K) : basis_gradient_val K 1 1 t = 1 / 2 := by
  simp [basis_gradient_val, basis_gradient]

/-- Order 2, node 0 basis gradient in closed form. -/
theorem bg20 (t : K) : basis_gradient_val K 2 0 t = t - 1 / 2 := by
  simp [basis_gradient_val, basis_gradient, xi_at_node, xiK]
  ring

/-- Order 2, node 1 basis gradient in closed form. -/
theorem bg21 (t : K) : basis_gradient_val K 2 1 t = t + 1 / 2 := by
  simp [basis_gradient_val, basis_gradient, xi_at_node, xiK]
  ring

/-- Order 2, node 2 basis gradient in closed form. -/
theorem bg22 (t : K) : basis_gradient_val K 2 2 t = -2 * t := by
  simp [basis_gradient_val, basis_gradient, xi_at_node, xiK]
  ring

/-- Order 3, node 0 basis gradient in closed form. -/
theorem bg30 (t : K) :
    basis_gradient_val K 3 0 t = -(27 / 16) * t ^ 2 + 9 / 8 * t + 1 / 16 := by
  simp [basis_gradient_val, basis_gradient, xi_at_node, xiK]
  field_simp
  ring

/-- Order 3, node 1 basis gradient in closed form. -/
theorem bg31 (t : K) :
    basis_gradient_val K 3 1 t = 27 / 16 * t ^ 2 + 9 / 8 * t - 1 / 16 := by
  simp [basis_gradient_val, basis_gradient, xi_at_node, xiK]
  field_simp
  ring

/-- Order 3, node 2 basis gradient in closed form. -/
theorem bg32 (t : K) :
    basis_gradient_val K 3 2 t = 81 / 16 * t ^ 2 - 9 / 8 * t - 27 / 16 := by
  simp [basis_gradient_val, basis_gradient, xi_at_node, xiK]
  field_simp
  ring

/-- Order 3, node 3 basis gradient in closed form. -/
theorem bg33 (t : K) :
    basis_gradient_val K 3 3 t = -(81 / 16) * t ^ 2 - 9 / 8 * t + 27 / 16 := by
  simp [basis_gradient_val, basis_gradient, xi_at_node, xiK]
  field_simp
  ring

/-- A cubic polynomial has the expected derivative at every point. -/
theorem hasDerivAt_cubic (a b c d x : ℝ) :
    HasDerivAt (fun t : ℝ => a * t ^ 3 + b * t ^ 2 + c * t + d)
      (3 * a * x ^ 2 + 2 * b * x + c) x := by
  have h3 : HasDerivAt (fun t : ℝ => a * t ^ 3) (a * (3 * x ^ 2)) x := by
    simpa using (hasDerivAt_pow 3 x).const_mul a
  have h2 : HasDerivAt (fun t : ℝ => b * t ^ 2) (b * (2 * x)) x := by
    simpa using (hasDerivAt_pow 2 x).const_mul b
  have h1 : HasDerivAt (fun t : ℝ => c * t) c x := by
    simpa using (hasDerivAt_id x).const_mul c
  have h := ((h3.add h2).add h1).add_const d
  convert h using 1
  ring

/-- Transfer `HasDerivAt` along cubic closed forms of a function and of
its claimed derivative value. -/
theorem hasDerivAt_of_forms (f : ℝ → ℝ) (a b c d y x : ℝ)
    (hf : ∀ t, f t = a * t ^ 3 + b * t ^ 2 + c * t + d)
    (hy : y = 3 * a * x ^ 2 + 2 * b * x + c) :
    HasDerivAt f y x := by
  have hfe : f = fun t : ℝ => a * t ^ 3 + b * t ^ 2 + c * t + d := funext hf
  rw [hfe, hy]
  exact hasDerivAt_cubic a b c d x

/-! ### Helper lemmas about the map, list and scatter operations -/

/-- Looking up the key just inserted yields the inserted value. -/
theorem mapLookup_mapInsert_self (m : List (ℕ × ℚ)) (k : ℕ) (v : ℚ) :
    mapLookup (mapInsert m k v) k = some v := by
  induction m with
  | nil => simp [mapInsert, mapLookup]
  | cons p rest ih =>
      by_cases h : p.1 = k
      · simp [mapInsert, h, mapLookup]
      · simp [mapInsert, h, mapLookup, ih]

/-- Inserting at one key leaves lookups at other keys unchanged. -/
theorem mapLookup_mapInsert_ne (m : List (ℕ × ℚ)) (k k2 : ℕ) (v : ℚ)
    (hne : k2 ≠ k) :
    mapLookup (mapInsert m k v) k2 = mapLookup m k2 := by
  have hne2 : ¬(k = k2) := fun h => hne h.symm
  induction m with
  | nil => simp [mapInsert, mapLookup, hne2]
  | cons p rest ih =>
      by_cases h : p.1 = k
      · simp [mapInsert, h, mapLookup, hne2]
      · simp only [mapInsert, h, if_neg, mapLookup, ih]

/-- Effect of one boundary-condition loop iteration on the key it
visits. -/
theorem bc_step_lookup_self (prob : ℕ) (L g1 g2 : ℚ) (loc : List ℚ)
    (m : List (ℕ × ℚ)) (n : ℕ) :
    mapLookup (bc_step prob L g1 g2 loc m n) n =
      if loc.getD n 0 = L ∧ prob = 1 then some g2
      else if loc.getD n 0 = 0 then some g1
      else mapLookup m n := by
  simp only [bc_step]
  by_cases hL2 : loc.getD n 0 = L ∧ prob = 1
  · simp only [if_pos hL2, mapLookup_mapInsert_self]
  · simp only [if_neg hL2]
    by_cases h0 : loc.getD n 0 = 0
    · simp only [if_pos h0, mapLookup_mapInsert_self]
    · simp only [if_neg h0]

/-- One boundary-condition loop iteration does not change keys other
than the node it visits. -/
theorem bc_step_lookup_ne (prob : ℕ) (L g1 g2 : ℚ) (loc : List ℚ)
    (m : List (ℕ × ℚ)) (n k : ℕ) (hk : k ≠ n) :
    mapLookup (bc_step prob L g1 g2 loc m n) k = mapLookup m k := by
  simp only [bc_step]
  by_cases hL2 : loc.getD n 0 = L ∧ prob = 1
  · simp only [if_pos hL2, mapLookup_mapInsert_ne _ _ _ _ hk]
    by_cases h0 : loc.getD n 0 = 0
    · simp only [if_pos h0, mapLookup_mapInsert_ne _ _ _ _ hk]
    · simp only [if_neg h0]
  · simp only [if_neg hL2]
    by_cases h0 : loc.getD n 0 = 0
    · simp only [if_pos h0, mapLookup_mapInsert_ne _ _ _ _ hk]
    · simp only [if_neg h0]

/-- Full characterisation of the boundary-condition map after the first
`N` loop iterations. -/
theorem bcAux_lookup (prob : ℕ) (L g1 g2 : ℚ) (loc : List ℚ) (N k : ℕ) :
    mapLookup (bcAux prob L g1 g2 loc N) k =
      if k < N then
        if loc.getD k 0 = L ∧ prob = 1 then some g2
        else if loc.getD k 0 = 0 then some g1
        else none
      else none := by
  induction N with
  | zero => simp [bcAux, mapLookup]
  | succ n ih =>
      have hstep : bcAux prob L g1 g2 loc (n + 1) =
          bc_step prob L g1 g2 loc (bcAux prob L g1 g2 loc n) n := by
        simp [bcAux, List.range_succ]
      rw [hstep]
      by_cases hk : k = n
      · subst hk
        rw [bc_step_lookup_self, ih]
        simp [Nat.lt_succ_self]
      · rw [bc_step_lookup_ne _ _ _ _ _ _ _ _ hk, ih]
        have hlt : (k < n + 1) ↔ (k < n) := by omega
        simp only [hlt]

/-- A left fold that only adds is the starting value plus the sum. -/
theorem foldl_add_eq_sum {α : Type} (f : α → ℚ) (l : List α) (a : ℚ) :
    l.foldl (fun acc x => acc + f x) a = a + (l.map f).sum := by
  induction l generalizing a with
  | nil => simp
  | cons x xs ih => simp [ih, add_assoc]

/-- `getD` on a mapped range evaluates the mapped function. -/
theorem getD_map_range (f : ℕ → ℚ) (n A : ℕ) (hA : A < n) :
    ((List.range n).map f).getD A 0 = f A := by
  rw [List.getD_eq_getElem _ _ (by simpa using hA)]
  simp

/-- `getD` at the position just overwritten by `set`. -/
theorem getD_set_self (l : List ℚ) (i : ℕ) (a : ℚ) (hi : i < l.length) :
    (l.set i a).getD i 0 = a := by
  rw [List.getD_eq_getElem _ _ (by simpa using hi)]
  simp

/-- `getD` at any other position is unchanged by `set`. -/
theorem getD_set_ne (l : List ℚ) (i j : ℕ) (a : ℚ) (hne : i ≠ j) :
    (l.set i a).getD j 0 = l.getD j 0 := by
  by_cases hj : j < l.length
  · rw [List.getD_eq_getElem _ _ (by simpa using hj),
      List.getD_eq_getElem _ _ hj]
    exact List.getElem_set_ne hne _
  · rw [List.getD_eq_default _ _ (by simpa using Nat.le_of_not_lt hj),
      List.getD_eq_default _ _ (Nat.le_of_not_lt hj)]

/-- Scatter-add folds evaluate, entrywise, to the sum of the
contributions targeted at that entry. -/
theorem foldl_update_apply {α β : Type} [DecidableEq β] (g : α → β) (v : α → ℚ)
    (l : List α) (F : β → ℚ) (i : β) :
    (l.foldl (fun F a => Function.update F (g a) (F (g a) + v a)) F) i =
      F i + ((l.filter fun a => g a = i).map v).sum := by
  induction l generalizing F with
  | nil => simp
  | cons a as ih =>
      simp only [List.foldl_cons, ih, List.filter_cons]
      by_cases hg : g a = i
      · simp [hg, Function.update_apply, add_assoc]
      · simp [hg, Function.update_apply, Ne.symm hg]

/-! ### The claims -/

/-- C1: for every order in {1, 2, 3} and all valid local node indices
`i`, `j`, `basis_function(i, ξ_j)` is the Kronecker delta, and for every
`ξ ∈ [-1, 1]` the basis functions sum to 1 (partition of unity). -/
theorem claim_C1 (order : ℕ) (hord : order = 1 ∨ order = 2 ∨ order = 3) :
    (∀ i j : ℕ, i ≤ order → j ≤ order →
      basis_function_val ℚ order i (xiK ℚ order j) = if i = j then 1 else 0) ∧
    ∀ xi : ℚ, -1 ≤ xi → xi ≤ 1 →
      ((List.range (order + 1)).map fun node => basis_function_val ℚ order node xi).sum = 1 := by
  rcases hord with h | h | h <;> subst h <;> constructor
  · intro i j hi hj
    interval_cases i <;> interval_cases j <;>
      simp only [bf10, bf11] <;> norm_num [xiK, xi_at_node]
  · intro xi h1 h2
    simp [List.range_succ, bf10, bf11]
    ring
  · intro i j hi hj
    interval_cases i <;> interval_cases j <;>
      simp only [bf20, bf21, bf22] <;> norm_num [xiK, xi_at_node]
  · intro xi h1 h2
    simp [List.range_succ, bf20, bf21, bf22]
    ring
  · intro i j hi hj
    interval_cases i <;> interval_cases j <;>
      simp only [bf30, bf31, bf32, bf33] <;> norm_num [xiK, xi_at_node]
  · intro xi h1 h2
    simp [List.range_succ, bf30, bf31, bf32, bf33]
    ring

/-- Witness for C1 at order 2: nodal value at node 1 and partition of
unity at ξ = 1/2. -/
theorem claim_C1_witness :
    basis_function_val ℚ 2 1 (xiK ℚ 2 1) = (if 1 = 1 then (1 : ℚ) else 0) ∧
    ((List.range (2 + 1)).map fun node => basis_function_val ℚ 2 node (1 / 2)).sum = 1 :=
  ⟨(claim_C1 2 (by norm_num)).1 1 1 (by norm_num) (by norm_num),
   (claim_C1 2 (by norm_num)).2 (1 / 2) (by norm_num) (by norm_num)⟩

/-- C2: for every order in {1, 2, 3}, every valid node, and every point
`x`, `basis_gradient(node, x)` is the derivative at `x` of the Lagrange
polynomial computed by `basis_function(node, ·)`. -/
theorem claim_C2 (order node : ℕ) (hord : order = 1 ∨ order = 2 ∨ order = 3)
    (hnode : node ≤ order) (x : ℝ) :
    HasDerivAt (fun t => basis_function_val ℝ order node t)
      (basis_gradient_val ℝ order node x) x := by
  rcases hord with h | h | h <;> subst h <;> interval_cases node
  · exact hasDerivAt_of_forms _ 0 0 (-(1/2)) (1/2) _ x
      (fun t => by rw [bf10]; ring) (by rw [bg10]; ring)
  · exact hasDerivAt_of_forms _ 0 0 (1/2) (1/2) _ x
      (fun t => by rw [bf11]; ring) (by rw [bg11]; ring)
  · exact hasDerivAt_of_forms _ 0 (1/2) (-(1/2)) 0 _ x
      (fun t => by rw [bf20]; ring) (by rw [bg20]; ring)
  · exact hasDerivAt_of_forms _ 0 (1/2) (1/2) 0 _ x
      (fun t => by rw [bf21]; ring) (by rw [bg21]; ring)
  · exact hasDerivAt_of_forms _ 0 (-1) 0 1 _ x
      (fun t => by rw [bf22]; ring) (by rw [bg22]; ring)
  · exact hasDerivAt_of_forms _ (-(9/16)) (9/16) (1/16) (-(1/16)) _ x
      (fun t => by rw [bf30]; ring) (by rw [bg30]; ring)
  · exact hasDerivAt_of_forms _ (9/16) (9/16) (-(1/16)) (-(1/16)) _ x
      (fun t => by rw [bf31]; ring) (by rw [bg31]; ring)
  · exact hasDerivAt_of_forms _ (27/16) (-(9/16)) (-(27/16)) (9/16) _ x
      (fun t => by rw [bf32]; ring) (by rw [bg32]; ring)
  · exact hasDerivAt_of_forms _ (-(27/16)) (-(9/16)) (27/16) (9/16) _ x
      (fun t => by rw [bf33]; ring) (by rw [bg33]; ring)

/-- Witness for C2 at order 2, node 1, point 0. -/
theorem claim_C2_witness :
    HasDerivAt (fun t => basis_function_val ℝ 2 1 t)
      (basis_gradient_val ℝ 2 1 0) 0 :=
  claim_C2 2 1 (by norm_num) (by norm_num) 0

/-- C3: for every solved state, the error accumulation of
`l2norm_of_error` equals the specification formula — the sum over all
elements and quadrature points of `(u_h - u_exact)² · (h_e/2) · w_q`
with `x_q` and `u_h` interpolated through the same `basis_function`
values used in assembly — and therefore the returned square root agrees
as well. -/
theorem claim_C3 (order prob : ℕ) (L g1 g2 E h : ℚ) (elems : List (List ℕ))
    (loc D : List ℚ) :
    l2norm_sq_code order prob L g1 g2 E h elems loc D =
      l2norm_sq_spec order prob L g1 g2 E h elems loc D ∧
    Real.sqrt (l2norm_sq_code order prob L g1 g2 E h elems loc D) =
      Real.sqrt (l2norm_sq_spec order prob L g1 g2 E h elems loc D) := by
  have key : l2norm_sq_code order prob L g1 g2 E h elems loc D =
      l2norm_sq_spec order prob L g1 g2 E h elems loc D := by
    simp only [l2norm_sq_code, l2norm_sq_spec, foldl_add_eq_sum, zero_add]
    congr 1
    apply List.map_congr_left
    intro dofs _
    congr 1
    apply List.map_congr_left
    intro q _
    ring
  exact ⟨key, by rw [key]⟩

/-- C4: in problem variant 2, an element whose right-end node lies at
`x = L` receives the flux magnitude `h` on top of the distributed-load
integral in the entry for local node 1, and only there; with any other
right-end coordinate, and in problem variant 1, every entry is exactly
the distributed-load integral. -/
theorem claim_C4 (order : ℕ) (L h : ℚ) (loc : List ℚ) (dofs : List ℕ)
    (hord : 1 ≤ order) :
    (loc.getD (dofs.getD 1 0) 0 = L →
      (Flocal order 2 L h loc dofs).getD 1 0 = Flocal_int order loc dofs 1 + h ∧
      ∀ A : ℕ, A ≤ order → A ≠ 1 →
        (Flocal order 2 L h loc dofs).getD A 0 = Flocal_int order loc dofs A) ∧
    (loc.getD (dofs.getD 1 0) 0 ≠ L →
      ∀ A : ℕ, A ≤ order →
        (Flocal order 2 L h loc dofs).getD A 0 = Flocal_int order loc dofs A) ∧
    ∀ A : ℕ, A ≤ order →
      (Flocal order 1 L h loc dofs).getD A 0 = Flocal_int order loc dofs A := by
  refine ⟨fun hL => ⟨?_, fun A hA hA1 => ?_⟩, fun hL A hA => ?_, fun A hA => ?_⟩
  · simp only [Flocal, if_pos rfl, if_pos hL, if_true, ite_self]
    have hs := getD_set_self ((List.range (order + 1)).map (Flocal_int order loc dofs)) 1
      (((List.range (order + 1)).map (Flocal_int order loc dofs)).getD 1 0 + h)
      (by simpa using (show 1 < order + 1 by omega))
    rw [hs, getD_map_range (Flocal_int order loc dofs) (order + 1) 1 (by omega)]
  · simp only [Flocal, if_pos rfl, if_pos hL, if_true, ite_self]
    rw [getD_set_ne _ _ _ _ (fun hc : 1 = A => hA1 hc.symm),
      getD_map_range (Flocal_int order loc dofs) (order + 1) A (by omega)]
  · simp only [Flocal, if_pos rfl, if_neg hL, if_true, ite_self]
    rw [getD_map_range (Flocal_int order loc dofs) (order + 1) A (by omega)]
  · have h12 : (1 : ℕ) ≠ 2 := by norm_num
    simp only [Flocal, if_neg h12]
    rw [getD_map_range (Flocal_int order loc dofs) (order + 1) A (by omega)]

/-- Witness for C4 on a one-element order-1 mesh with the right-end
node at `L`. -/
theorem claim_C4_witness :
    ((Flocal 1 2 (1 / 10) 13 [0, 1 / 10] [0, 1]).getD 1 0 =
      Flocal_int 1 [0, 1 / 10] [0, 1] 1 + 13) ∧
    ((Flocal 1 2 (1 / 10) 13 [0, 1 / 10] [0, 1]).getD 0 0 =
      Flocal_int 1 [0, 1 / 10] [0, 1] 0) ∧
    ((Flocal 1 1 (1 / 10) 13 [0, 1 / 10] [0, 1]).getD 1 0 =
      Flocal_int 1 [0, 1 / 10] [0, 1] 1) := by
  have hc := claim_C4 1 (1 / 10) 13 [0, 1 / 10] [0, 1] (by norm_num)
  have hL : ([(0 : ℚ), 1 / 10].getD ([0, 1].getD 1 0) 0 = 1 / 10) := by
    norm_num [List.getD]
  exact ⟨(hc.1 hL).1, (hc.1 hL).2 0 (by norm_num) (by norm_num),
    hc.2.2 1 (by norm_num)⟩

/-- C5: after `define_boundary_conds`, the Dirichlet map holds exactly
the DOFs whose coordinate equals 0 (value `g1`) and, for problem
variant 1, those whose coordinate equals `L` (value `g2`), decided by
exact equality; every other (interior or out-of-range) DOF is absent.
Stated for `L ≠ 0` (the solver always uses `L = 0.1`). -/
theorem claim_C5 (prob : ℕ) (L g1 g2 : ℚ) (loc : List ℚ) (hL : L ≠ 0) (k : ℕ) :
    mapLookup (define_boundary_conds prob L g1 g2 loc) k =
      if k < loc.length then
        if loc.getD k 0 = 0 then some g1
        else if prob = 1 ∧ loc.getD k 0 = L then some g2
        else none
      else none := by
  have h := bcAux_lookup prob L g1 g2 loc loc.length k
  rw [show define_boundary_conds prob L g1 g2 loc =
      bcAux prob L g1 g2 loc loc.length from rfl, h]
  by_cases hk : k < loc.length
  · simp only [if_pos hk]
    by_cases h0 : loc.getD k 0 = 0
    · have hnL : ¬(loc.getD k 0 = L ∧ prob = 1) := by
        rintro ⟨hA, _⟩
        exact hL (by rw [← hA, h0])
      simp only [if_pos h0, if_neg hnL]
    · by_cases hLp : loc.getD k 0 = L ∧ prob = 1
      · have hp2 : prob = 1 ∧ loc.getD k 0 = L := ⟨hLp.2, hLp.1⟩
        simp only [if_pos hLp, if_neg h0, if_pos hp2]
      · have hnp : ¬(prob = 1 ∧ loc.getD k 0 = L) := fun hc => hLp ⟨hc.2, hc.1⟩
        simp only [if_neg hLp, if_neg h0, if_neg hnp]
  · simp only [if_neg hk]

/-- Witness for C5: a three-node mesh on [0, 1/10] under problem 1; the
right-boundary DOF carries `g2`. -/
theorem claim_C5_witness :
    mapLookup (define_boundary_conds 1 (1 / 10) 5 7 [0, 1 / 20, 1 / 10]) 2 = some 7 := by
  have h := claim_C5 1 (1 / 10) 5 7 [0, 1 / 20, 1 / 10] (by norm_num) 2
  rw [h]
  norm_num [List.getD]

/-- C6 counterexample: the claim says an element of non-positive length
makes assembly abort with no contribution scattered, but on a
one-element mesh with `h_e = 0 - 2 = -2 ≤ 0` the assembled global load
vector receives a non-zero contribution at DOF 0. -/
theorem claim_C6_counterexample :
    scatterF 1 1 (1 / 10) (10 ^ 10) [2, 0] [[0, 1]] 0 ≠ 0 := by
  norm_num [scatterF, Flocal, Flocal_int, interp, basis_function_val, basis_function,
    xi_at_node, quad_points, quad_weight, quadRule, List.range_succ, Function.update,
    List.getD, List.filter]

/-- C6 (amended): `assemble_system` performs no element-length check;
an element whose length `h_e` is zero or negative is processed like any
other, and its load and stiffness contributions are scattered into the
global system by additive accumulation. -/
theorem claim_C6_amended (order prob : ℕ) (L h : ℚ) (loc : List ℚ)
    (dofs : List ℕ) (i : ℕ) (ij : ℕ × ℕ)
    (hdeg : loc.getD (dofs.getD 1 0) 0 - loc.getD (dofs.getD 0 0) 0 ≤ 0) :
    scatterF order prob L h loc [dofs] i =
      (((List.range (order + 1)).filter fun A => dofs.getD A 0 = i).map
        fun A => (Flocal order prob L h loc dofs).getD A 0).sum ∧
    scatterK order loc [dofs] ij =
      (((pairList order).filter
          fun p => (dofs.getD p.1 0, dofs.getD p.2 0) = ij).map
        fun p => Klocal order loc dofs p.1 p.2).sum := by
  constructor
  · simp only [scatterF, List.foldl_cons, List.foldl_nil]
    simpa using foldl_update_apply (fun A => dofs.getD A 0)
      (fun A => (Flocal order prob L h loc dofs).getD A 0)
      (List.range (order + 1)) (fun _ => 0) i
  · simp only [scatterK, List.foldl_cons, List.foldl_nil]
    simpa using foldl_update_apply (fun p : ℕ × ℕ => (dofs.getD p.1 0, dofs.getD p.2 0))
      (fun p : ℕ × ℕ => Klocal order loc dofs p.1 p.2)
      (pairList order) (fun _ => 0) ij

/-- Witness for the amended C6 at the degenerate element `[2, 0]`
(length -2). -/
theorem claim_C6_amended_witness :
    scatterF 1 1 (1 / 10) (10 ^ 10) [2, 0] [[0, 1]] 0 =
      (((List.range (1 + 1)).filter fun A => [0, 1].getD A 0 = 0).map
        fun A => (Flocal 1 1 (1 / 10) (10 ^ 10) [2, 0] [0, 1]).getD A 0).sum ∧
    scatterK 1 [2, 0] [[0, 1]] (0, 1) =
      (((pairList 1).filter
          fun p => ([0, 1].getD p.1 0, [0, 1].getD p.2 0) = (0, 1)).map
        fun p => Klocal 1 [2, 0] [0, 1] p.1 p.2).sum :=
  claim_C6_amended 1 1 (1 / 10) (10 ^ 10) [2, 0] [0, 1] 0 (0, 1)
    (by norm_num [List.getD])

/-- C7 counterexample: the claim says every invalid configuration input
— including a polynomial order outside 1-3 — fails fatally with no
partial computation, but the constructor accepts order 5 (it validates
only the problem number) and `basis_gradient` then computes, error-free,
the silent value 0. -/
theorem claim_C7_counterexample :
    FEM_ctor 5 1 = some (5, 1) ∧ basis_gradient ℚ 5 0 (0 : ℚ) = some 0 := by
  constructor
  · simp [FEM_ctor]
  · simp [basis_gradient]

/-- C7 (amended): an invalid problem variant fails fatally in the
constructor, and a local node index greater than the order fails
fatally in `xi_at_node`; but the polynomial order is never validated —
construction succeeds for any order, and `basis_gradient` proceeds,
silently returning 0 for unsupported orders. -/
theorem claim_C7_amended (order problem node : ℕ) :
    (problem ≠ 1 → problem ≠ 2 → FEM_ctor order problem = none) ∧
    (1 ≤ order → order < node → xi_at_node ℚ order node = none) ∧
    FEM_ctor 5 1 = some (5, 1) ∧
    (order ≠ 1 → order ≠ 2 → order ≠ 3 →
      basis_gradient ℚ order node (0 : ℚ) = some 0) := by
  refine ⟨fun hp1 hp2 => ?_, fun ho hgt => ?_, by simp [FEM_ctor], fun h1 h2 h3 => ?_⟩
  · simp [FEM_ctor, hp1, hp2]
  · have hne0 : node ≠ 0 := by omega
    have hne1 : node ≠ 1 := by omega
    have hnle : ¬node ≤ order := by omega
    simp [xi_at_node, hne0, hne1, hnle]
  · simp [basis_gradient, h1, h2, h3]

/-- Witness for the amended C7 at order 5, problem 3, node 7. -/
theorem claim_C7_amended_witness :
    FEM_ctor 5 3 = none ∧ xi_at_node ℚ 5 7 = none ∧
    basis_gradient ℚ 5 7 (0 : ℚ) = some 0 :=
  ⟨(claim_C7_amended 5 3 7).1 (by norm_num) (by norm_num),
   (claim_C7_amended 5 3 7).2.1 (by norm_num) (by norm_num),
   (claim_C7_amended 5 3 7).2.2.2 (by norm_num) (by norm_num) (by norm_num)⟩

/-- C8: for every order in {1, 2, 3}, `xi_at_node` returns -1 at node 0,
+1 at node 1, the equally spaced interior point `-1 + 2(node-1)/order`
for `2 ≤ node ≤ order`, and fails for `node > order`. -/
theorem claim_C8 (order node : ℕ) (hord : order = 1 ∨ order = 2 ∨ order = 3) :
    (node = 0 → xi_at_node ℚ order node = some (-1)) ∧
    (node = 1 → xi_at_node ℚ order node = some 1) ∧
    (2 ≤ node → node ≤ order →
      xi_at_node ℚ order node = some (-1 + 2 * ((node : ℚ) - 1) / (order : ℚ))) ∧
    (order < node → xi_at_node ℚ order node = none) := by
  refine ⟨fun h0 => ?_, fun h1 => ?_, fun h2 hle => ?_, fun hgt => ?_⟩
  · subst h0; simp [xi_at_node]
  · subst h1; simp [xi_at_node]
  · have hne0 : node ≠ 0 := by omega
    have hne1 : node ≠ 1 := by omega
    simp [xi_at_node, hne0, hne1, hle]
  · have hord1 : 1 ≤ order := by rcases hord with h | h | h <;> omega
    have hne0 : node ≠ 0 := by omega
    have hne1 : node ≠ 1 := by omega
    have hnle : ¬node ≤ order := by omega
    simp [xi_at_node, hne0, hne1, hnle]

/-- Witness for C8 at order 3: interior node 2 and out-of-range node 5. -/
theorem claim_C8_witness :
    xi_at_node ℚ 3 2 = some (-1 + 2 * ((2 : ℚ) - 1) / (3 : ℚ)) ∧
    xi_at_node ℚ 3 5 = none :=
  ⟨(claim_C8 3 2 (by norm_num)).2.2.1 (by norm_num) (by norm_num),
   (claim_C8 3 5 (by norm_num)).2.2.2 (by norm_num)⟩

/-- C9: the 3-point Gauss weights installed by `setup_system` sum to 2,
the length of the reference interval, to within floating-point
tolerance (the exact decimal literals sum to 2 + 2·10⁻¹⁶). -/
theorem claim_C9 : |quad_weight.sum - 2| ≤ 1 / 10 ^ 15 := by
  have h : quad_weight.sum - 2 = 1 / 5000000000000000 := by norm_num [quad_weight]
  rw [h, abs_of_nonneg (by norm_num)]
  norm_num

/-- C10: for every order outside {1, 2, 3}, `basis_gradient` returns 0
for every node and every ξ, without signalling any error (`some 0`, not
`none`: no branch is taken and no failing call is made). -/
theorem claim_C10 (order node : ℕ) (xi : ℚ)
    (h1 : order ≠ 1) (h2 : order ≠ 2) (h3 : order ≠ 3) :
    basis_gradient ℚ order node xi = some 0 := by
  simp [basis_gradient, h1, h2, h3]

/-- Witness for C10 at order 4. -/
theorem claim_C10_witness : basis_gradient ℚ 4 2 (1 / 2 : ℚ) = some 0 :=
  claim_C10 4 2 (1 / 2) (by norm_num) (by norm_num) (by norm_num)

end FEM1
